import Mathlib

/-!
Verification development for the memex session-capture / compression /
context-assembly subsystem.  The TypeScript sources are shallowly embedded:
pure functions become Lean functions over `String` / `List Char`, stateful
code becomes explicit state passing over a `World` record, and the external
collaborators (the AI chat call, the JSON builtins of the JavaScript
runtime, the git-context collaborator, the date formatter) are passed in as
explicit parameters, exactly at the points where the source calls out to
them.
-/

namespace Memex

-- ─── Generic list/string helpers ────────────────────────────────────────────

/-- JavaScript `Array.prototype.slice(-n)` / the last `n` elements. -/
def takeLast (n : Nat) (l : List α) : List α := l.drop (l.length - n)

/-- Whitespace set used by JavaScript `String.prototype.trim`. -/
def isWs (c : Char) : Bool :=
  c == ' ' || c == '\t' || c == '\n' || c == '\r' || c == '\x0b' || c == '\x0c'

/-- Trim over a character list (both ends). -/
def trimL (l : List Char) : List Char :=
  ((l.dropWhile isWs).reverse.dropWhile isWs).reverse

/-- JavaScript `String.prototype.trim`, embedded over the string's data. -/
def jsTrim (s : String) : String := ⟨trimL s.data⟩

/-- Does `n` occur at the head of `h` (exact, case sensitive)? -/
def startsL : List Char → List Char → Bool
  | [], _ => true
  | _ :: _, [] => false
  | a :: as, b :: bs => a == b && startsL as bs

/-- Substring test on character lists (needle, haystack). -/
def hasSub (n : List Char) : List Char → Bool
  | [] => startsL n []
  | c :: cs => startsL n (c :: cs) || hasSub n cs

/-- Case-insensitive version of `startsL` (models a regex `i` flag). -/
def ciStarts : List Char → List Char → Bool
  | [], _ => true
  | _ :: _, [] => false
  | a :: as, b :: bs => a.toLower == b.toLower && ciStarts as bs

/-- Join a list of strings with a separator (JS `Array.prototype.join`). -/
def joinSep (sep : String) : List String → String
  | [] => ""
  | [x] => x
  | x :: y :: xs => x ++ sep ++ joinSep sep (y :: xs)

-- ─── Data model (src/src/memory/store.ts) ───────────────────────────────────

structure KeyDecision where
  decision : String
  reason : String
  date : String
deriving DecidableEq

structure ImportantFile where
  filePath : String
  purpose : String
deriving DecidableEq

structure RecentSession where
  date : String
  summary : String
  logFile : String
deriving DecidableEq

/-- One conversation turn (src/core/session-logger.ts shape used by storage). -/
structure ConversationTurn where
  role : String
  content : String
  ts : String
deriving DecidableEq

structure ProjectMemory where
  projectName : String
  projectPath : String
  stack : List String
  description : String
  keyDecisions : List KeyDecision
  currentFocus : String
  focusHistory : List String
  pendingTasks : List String
  importantFiles : List ImportantFile
  gotchas : List String
  recentSessions : List RecentSession
  lastConversation : List ConversationTurn
  lastUpdated : String
deriving DecidableEq

-- ─── applySkipFilter (src/unnamed/part_001, lines 25-30) ────────────────────

def openTagL : List Char := "<memex:skip>".data
def closeTagL : List Char := "</memex:skip>".data
def placeholderL : List Char := "[content excluded by <memex:skip>]".data

/--
Split the input at the first case-insensitive occurrence of
`</memex:skip>`, returning the text before it and the text after it.
Models the lazy `[\s\S]*?<\/memex:skip>` part of the source regex.
-/
def findClose : List Char → Option (List Char × List Char)
  | [] => none
  | c :: cs =>
    if ciStarts closeTagL (c :: cs) then some ([], (c :: cs).drop closeTagL.length)
    else
      match findClose cs with
      | some (p, q) => some (c :: p, q)
      | none => none

/--
Scanner core of `applySkipFilter`: models
`transcript.replace(/<memex:skip>[\s\S]*?<\/memex:skip>/gi, placeholder)`.
At each position, if the case-insensitive open marker starts here and a
close marker follows, the whole span is replaced by the placeholder and the
scan resumes after the close marker; an open marker with no later close
marker means no further match is possible anywhere, so the rest is kept.
The `fuel` argument makes the recursion structural; one unit of fuel is
spent per consumed character, so `s.length` fuel always suffices.
-/
def skipGo : Nat → List Char → List Char
  | _, [] => []
  | 0, s => s
  | fuel + 1, c :: cs =>
    if ciStarts openTagL (c :: cs) then
      match findClose ((c :: cs).drop openTagL.length) with
      | some (_, post) => placeholderL ++ skipGo fuel post
      | none => c :: cs
    else c :: skipGo fuel cs

def skipAux (s : List Char) : List Char := skipGo s.length s

/-- `applySkipFilter` from src/unnamed/part_001 (lines 25-30). -/
def applySkipFilter (transcript : String) : String := ⟨skipAux transcript.data⟩

-- ─── Context assembler (src/src/memory/context-builder.ts) ──────────────────

/--
`ContextOptions` from context-builder.ts.  `tier` and `maxTokens` are
optional in the source; `tier ?? 3` is a nullish default while
`opts.maxTokens ? … : …` and `opts.focus ? … : …` are truthiness tests
(0 and "" count as absent), embedded below exactly as the source reads them.
-/
structure ContextOptions where
  tier : Option Nat := none
  maxTokens : Option Nat := none
  focus : Option String := none
deriving DecidableEq

/-- `tokensToChars` (context-builder.ts line 47). -/
def tokensToChars (tokens : Nat) : Nat := tokens * 4

/--
The `charLimit` computed at the top of `buildContext` (lines 114-119):
`opts.maxTokens ? tokensToChars(opts.maxTokens) : tier === 1 ? 300 :
tier === 2 ? 2000 : 35000` with `tier = opts.tier ?? 3`.
-/
def effectiveCharLimit (o : ContextOptions) : Nat :=
  let tier := o.tier.getD 3
  let tierDefault := if tier = 1 then 300 else if tier = 2 then 2000 else 35000
  match o.maxTokens with
  | some k => if k = 0 then tierDefault else tokensToChars k
  | none => tierDefault

/-- Maximal runs of non-whitespace characters (JS `split(/\s+/)` followed by
the `length > 2` filter drops all empty fragments, so tokenising is
equivalent). -/
def wsTokensGo (cur : List Char) : List Char → List (List Char)
  | [] => if cur = [] then [] else [cur.reverse]
  | c :: cs =>
    if isWs c then
      if cur = [] then wsTokensGo [] cs else cur.reverse :: wsTokensGo [] cs
    else wsTokensGo (c :: cur) cs

/-- `focusKeywords` (context-builder.ts lines 62-67): lowercase, split on
whitespace, keep words longer than 2 characters. -/
def focusKeywords (focus : String) : List (List Char) :=
  (wsTokensGo [] (focus.data.map Char.toLower)).filter (fun w => w.length > 2)

/-- `scoreRelevance` (lines 57-60): number of keywords occurring as
substrings of the lowercased text. -/
def scoreRelevance (text : List Char) (keywords : List (List Char)) : Nat :=
  let lower := text.map Char.toLower
  keywords.foldl (fun n kw => n + (if hasSub kw lower then 1 else 0)) 0

/-- Stable insert for a descending sort by score: an element moves before
another only when its score is strictly larger, which reproduces the output
of the stable JS `sort((a, b) => score(b) - score(a))`. -/
def insDesc (score : α → Nat) (x : α) : List α → List α
  | [] => [x]
  | y :: ys => if score y ≤ score x then x :: y :: ys else y :: insDesc score x ys

def sortDesc (score : α → Nat) (l : List α) : List α := l.foldr (insDesc score) []

/-- `sortByRelevance` (lines 70-75). -/
def sortStrs (items : List String) (keywords : List (List Char)) : List String :=
  if keywords = [] then items
  else sortDesc (fun t => scoreRelevance t.data keywords) items

/-- `sortDecisionsByRelevance` (lines 77-87). -/
def sortDecs (items : List KeyDecision) (keywords : List (List Char)) : List KeyDecision :=
  if keywords = [] then items
  else sortDesc (fun d => scoreRelevance (d.decision ++ " " ++ d.reason).data keywords) items

/-- `sortFilesByRelevance` (lines 89-99). -/
def sortFiles (items : List ImportantFile) (keywords : List (List Char)) : List ImportantFile :=
  if keywords = [] then items
  else sortDesc (fun f => scoreRelevance (f.filePath ++ " " ++ f.purpose).data keywords) items

/--
The text `buildContext` assembles before applying the character limit
(context-builder.ts lines 120-198; each tier early-returns
`applyLimit(parts.join("\n"), charLimit)`, so `buildContext` is the
composition of this renderer with `applyLimit`).  `fmtDate` stands for the
JS `new Date(d).toLocaleDateString()` runtime builtin.
-/
def renderContext (fmtDate : String → String) (m : ProjectMemory) (o : ContextOptions) : String :=
  let tier := o.tier.getD 3
  let keywords := match o.focus with
    | some f => if f = "" then [] else focusKeywords f
    | none => []
  let lastSession := m.recentSessions.getLast?
  let oneLiner := joinSep " | " (List.filterMap id
    [some ("Project: " ++ m.projectName),
     if m.currentFocus ≠ "" then some ("Focus: " ++ m.currentFocus) else none,
     lastSession.map (fun s => "Last session: " ++ fmtDate s.date)])
  let parts1 := [oneLiner]
  if tier = 1 then joinSep "\n" parts1
  else
    let descParts := if m.description ≠ "" then ["\nWhat this project does:\n" ++ m.description] else []
    let stackParts := if m.stack ≠ [] then ["\nStack: " ++ joinSep ", " m.stack] else []
    let tasks := sortStrs m.pendingTasks keywords
    let topTasks := if tier = 2 then tasks.take 3 else tasks
    let taskParts :=
      if topTasks ≠ [] then
        ["\nPending tasks:\n" ++ joinSep "\n" (topTasks.map (fun t => "- " ++ t))] ++
        (if tier = 2 ∧ tasks.length > 3 then
          ["  … and " ++ toString (tasks.length - 3) ++ " more (use get_tasks() for full list)"]
         else [])
      else []
    let gotchas := sortStrs m.gotchas keywords
    let topGotchas := if tier = 2 then gotchas.take 3 else gotchas
    let gotchaParts :=
      if topGotchas ≠ [] then
        ["\nGotchas:\n" ++ joinSep "\n" (topGotchas.map (fun g => "- " ++ g))] ++
        (if tier = 2 ∧ gotchas.length > 3 then
          ["  … and " ++ toString (gotchas.length - 3) ++ " more (use get_gotchas() for full list)"]
         else [])
      else []
    let sessParts := match lastSession with
      | some s => ["\nLast session (" ++ fmtDate s.date ++ "):\n" ++ s.summary]
      | none => []
    let parts2 := parts1 ++ descParts ++ stackParts ++ taskParts ++ gotchaParts ++ sessParts
    if tier = 2 then joinSep "\n" parts2
    else
      let decisions := sortDecs m.keyDecisions keywords
      let decParts :=
        if decisions ≠ [] then
          ["\nKey decisions:\n" ++ joinSep "\n"
            (decisions.map (fun d => "- " ++ d.decision ++ " (reason: " ++ d.reason ++ ")"))]
        else []
      let files := sortFiles m.importantFiles keywords
      let fileParts :=
        if files ≠ [] then
          ["\nImportant files:\n" ++ joinSep "\n"
            (files.map (fun f => "- " ++ f.filePath ++ ": " ++ f.purpose))]
        else []
      joinSep "\n" (parts2 ++ decParts ++ fileParts)

/-- Index of the last newline in a character list (JS `cut.lastIndexOf("\n")`,
with `none` standing for `-1`). -/
def lastNlIdx : List Char → Option Nat
  | [] => none
  | c :: cs =>
    match lastNlIdx cs with
    | some j => some (j + 1)
    | none => if c = '\n' then some 0 else none

/-- The fixed truncation notice appended by `applyLimit`. -/
def truncNotice : String := "\n\n> [Memex: context truncated to fit token budget]"

/-- The `trimmed` computation inside `applyLimit` (context-builder.ts lines
244-247): `lastNewline > charLimit * 0.8 ? cut.slice(0, lastNewline) : cut`.
The JS comparison `lastNewline > charLimit * 0.8` on an integer index is
equivalent to `5 * j > 4 * charLimit` (the double rounding of
`charLimit * 0.8` never crosses an integer), and `lastIndexOf` returning
`-1` falls into the `cut`-unchanged branch because `-1 > 0.8 * charLimit`
is false. -/
def truncCore (cut : List Char) (charLimit : Nat) : List Char :=
  match lastNlIdx cut with
  | some j => if 5 * j > 4 * charLimit then cut.take j else cut
  | none => cut

/-- `applyLimit` (context-builder.ts lines 241-250). -/
def applyLimit (text : String) (charLimit : Nat) : String :=
  if text.length ≤ charLimit then text
  else String.mk (truncCore (text.data.take charLimit) charLimit) ++ truncNotice

/-- `buildContext` (context-builder.ts lines 110-199). -/
def buildContext (fmtDate : String → String) (m : ProjectMemory) (o : ContextOptions) : String :=
  applyLimit (renderContext fmtDate m o) (effectiveCharLimit o)

/-- Boolean suffix test used to state "ends with the truncation notice". -/
def endsWithB (suffix s : String) : Bool := startsL suffix.data.reverse s.data.reverse

-- ─── Memory store (src/src/memory/store.ts) ─────────────────────────────────

/-- Last path component (Node `path.basename`, restricted to `/`-separated
paths as used for project directories). -/
def splitSlashGo (cur : List Char) : List Char → List (List Char)
  | [] => [cur.reverse]
  | c :: cs => if c = '/' then cur.reverse :: splitSlashGo [] cs else splitSlashGo (c :: cur) cs

def basename (p : String) : String :=
  ⟨(((splitSlashGo [] p.data).filter (fun seg => seg ≠ [])).getLast?).getD p.data⟩

/-- `initMemory` (store.ts lines 101-120); `now` stands for
`new Date().toISOString()`. -/
def initMemory (projectPath now : String) : ProjectMemory :=
  { projectName := basename projectPath
    projectPath := projectPath
    stack := []
    description := ""
    keyDecisions := []
    currentFocus := ""
    focusHistory := []
    pendingTasks := []
    importantFiles := []
    gotchas := []
    recentSessions := []
    lastConversation := []
    lastUpdated := now }

def MAX_FOCUS_HISTORY : Nat := 10

/--
`setFocus` (store.ts lines 129-146) acting on the loaded memory.  The store
load/save pair is external persistence; the returned boolean records
whether `saveMemory` was called (the `prev === topic` branch returns the
loaded memory untouched and performs no save).  `saveMemory` overwrites
`lastUpdated` with the current timestamp, modelled by `now`.
-/
def setFocus (m : ProjectMemory) (topic now : String) : ProjectMemory × Bool :=
  let prev := m.currentFocus
  if prev = topic then (m, false)
  else
    let m1 :=
      if prev ≠ "" ∧ prev ∉ m.focusHistory then
        { m with focusHistory := takeLast MAX_FOCUS_HISTORY (m.focusHistory ++ [prev]) }
      else m
    ({ m1 with currentFocus := topic, lastUpdated := now }, true)

-- ─── Compression orchestrator (src/unnamed/part_001) ────────────────────────

/-- Git-context collaborator output (`getGitContext` + `formatGitContext`
are external per the spec; only the formatted text and the changed-file
count feed the prompt). -/
structure GitCtx where
  formatted : String
  changedFiles : Nat
deriving DecidableEq

/-- JavaScript runtime builtins used by `compressSession`, passed in as a
collaborator record: `JSON.stringify` on the three shapes that appear in
the prompt, and `JSON.parse` into the memory shape (an `error` result
models the exception carrying the parse error message). -/
structure Js where
  stringifyMem : ProjectMemory → String
  stringifySessions : List RecentSession → String
  stringifyStrs : List String → String
  parseMem : String → Except String ProjectMemory

def SYSTEM_PROMPT : String :=
  "You are a memory manager for an AI coding agent. \n" ++
  "Your job is to extract and maintain a structured understanding of a software project \n" ++
  "from conversation transcripts between a developer and an AI assistant.\n\n" ++
  "Be concise, accurate, and practical. Focus on what would actually help the AI \n" ++
  "resume work on this project without losing context. Output must always be valid JSON."

/-- The user message of the summarization call (part_001 lines 75-114), with
the transcript section already holding the redacted transcript's last
12000 characters. -/
def mkUserContent (js : Js) (existing : ProjectMemory) (git : Option GitCtx)
    (safeTranscript : String) (projectPath logFile now : String) (snap : Bool) : String :=
  let existingContext :=
    if existing.description ≠ "" then
      "Existing project memory:\n" ++ js.stringifyMem existing
    else "No existing memory for this project."
  let gitSection :=
    match git with
    | some g => "\n--- GIT CONTEXT ---\n" ++ g.formatted ++ "\n--- END GIT CONTEXT ---\n"
    | none => ""
  let gitHint :=
    match git with
    | some g =>
      if g.changedFiles > 0 then
        "- The git context shows changed files — consider adding relevant ones to importantFiles if not already present."
      else ""
    | none => ""
  let recentSessionsInstruction :=
    if snap then
      "Keep recentSessions unchanged: " ++ js.stringifySessions existing.recentSessions
    else
      "Add a new entry to recentSessions:\n\x7b \"date\": \"" ++ now ++
      "\", \"summary\": \"2-3 sentence summary of this session\", \"logFile\": \"" ++
      logFile ++ "\" \x7d\n\nKeep recentSessions to the last 5 entries only."
  "Analyze this conversation transcript and update the project memory.\n\n" ++
  existingContext ++ "\n" ++
  gitSection ++ "\n" ++
  "--- TRANSCRIPT ---\n" ++
  String.mk (takeLast 12000 safeTranscript.data) ++ "\n" ++
  "--- END TRANSCRIPT ---\n\n" ++
  "Return an updated JSON object merging existing memory with new information from this session.\n" ++
  "Schema:\n" ++
  "\x7b\n" ++
  "  \"projectName\": \"string\",\n" ++
  "  \"projectPath\": \"" ++ projectPath ++ "\",\n" ++
  "  \"stack\": [\"array of tech stack items\"],\n" ++
  "  \"description\": \"string - what this project does\",\n" ++
  "  \"keyDecisions\": [\n" ++
  "    \x7b \"decision\": \"string\", \"reason\": \"string\", \"date\": \"ISO date string\" \x7d\n" ++
  "  ],\n" ++
  "  \"currentFocus\": \"string - what was being worked on at the END of this transcript (update this if the work shifted during the session)\",\n" ++
  "  \"focusHistory\": [\"string array - previous focus topics, newest last, max 10 entries\"],\n" ++
  "  \"pendingTasks\": [\"string array - tasks mentioned but not completed\"],\n" ++
  "  \"importantFiles\": [\n" ++
  "    \x7b \"filePath\": \"string\", \"purpose\": \"string\" \x7d\n" ++
  "  ],\n" ++
  "  \"gotchas\": [\"string array - problems encountered, mistakes made, things to avoid\"],\n" ++
  "  \"recentSessions\": " ++ js.stringifySessions existing.recentSessions ++ ",\n" ++
  "  \"lastUpdated\": \"" ++ now ++ "\"\n" ++
  "\x7d\n\n" ++
  "IMPORTANT for currentFocus and focusHistory:\n" ++
  "- Set currentFocus to whatever was being worked on at the END of the transcript, even if it differs from the existing value.\n" ++
  "- If currentFocus changed from \"" ++ existing.currentFocus ++ "\", add the old value to focusHistory (if not already present).\n" ++
  "- Existing focusHistory to carry forward: " ++ js.stringifyStrs existing.focusHistory ++ "\n" ++
  "- Keep focusHistory to the last 10 entries only.\n" ++
  gitHint ++ "\n\n" ++
  recentSessionsInstruction ++ "\n" ++
  "Return ONLY the JSON, no markdown, no explanation."

/-- Strip a leading markdown fence: `.replace(/^```(?:json)?\s*/i, "")`. -/
def stripLeadFence (l : List Char) : List Char :=
  if startsL "```".data l then
    let rest := l.drop 3
    let rest2 := if ciStarts "json".data rest then rest.drop 4 else rest
    rest2.dropWhile isWs
  else l

/-- Strip a trailing markdown fence: `.replace(/\s*```$/, "")`. -/
def stripTrailFence (l : List Char) : List Char :=
  let r := l.reverse
  if startsL "```".data r then ((r.drop 3).dropWhile isWs).reverse else l

/-- The fence-unwrapping pipeline of `compressSession` (lines 122-126). -/
def cleanResponse (response : String) : String :=
  jsTrim ⟨stripTrailFence (stripLeadFence (jsTrim response).data)⟩

/-- The deterministic focus-history repair applied when the AI response
omits `focusHistory` (lines 130-140). -/
def repairFocusHistory (hist : List String) (prev next : String) : List String :=
  if prev ≠ "" ∧ prev ≠ next ∧ prev ∉ hist then takeLast 10 (hist ++ [prev]) else hist

def EMPTY_RESPONSE_MSG : String :=
  "AI returned an empty response — is your API key set correctly?"

def PARSE_FAIL_PREFIX : String := "Could not parse AI response as JSON: "

def FAIL_SUMMARY_PREFIX : String := "Session recorded but compression failed — "

/-- The diagnostic reason of the catch block (part_001 lines 145-147). -/
def failReason (response msg : String) : String :=
  if (jsTrim response).length = 0 then EMPTY_RESPONSE_MSG
  else PARSE_FAIL_PREFIX ++ msg

/-- The failure-flagged `recentSessions` entry (lines 149-153). -/
def failEntry (reason logFile now : String) : RecentSession :=
  ⟨now, FAIL_SUMMARY_PREFIX ++ reason, logFile⟩

/-- The memory persisted on parse failure: the failure entry is pushed and
the list capped at the last 5 (lines 149-157); `saveMemory` stamps
`lastUpdated`. -/
def failMemory (existing : ProjectMemory) (reason logFile now : String) : ProjectMemory :=
  let rs := existing.recentSessions ++ [failEntry reason logFile now]
  let rs5 := if rs.length > 5 then takeLast 5 rs else rs
  { existing with recentSessions := rs5, lastUpdated := now }

structure ChatCall where
  content : String
  system : String
deriving DecidableEq

/-- Observable effects of one `compressSession` run: the chat calls made,
the memories passed to `saveMemory` (in order), and the return value
(`error` models the thrown exception's message). -/
structure CompressOut where
  calls : List ChatCall
  saves : List ProjectMemory
  result : Except String ProjectMemory

/--
`compressSession` (part_001 lines 39-162) given the loaded-or-initialised
existing memory, the collaborator inputs (git context, chat `response`),
and `now` for `new Date().toISOString()`.  `snap` is `options.partial`.
-/
def compressSession (js : Js) (git : Option GitCtx) (existing : ProjectMemory)
    (transcript projectPath logFile now : String) (snap : Bool)
    (response : String) : CompressOut :=
  let safeTranscript := applySkipFilter transcript
  let content := mkUserContent js existing git safeTranscript projectPath logFile now snap
  let call : ChatCall := ⟨content, SYSTEM_PROMPT⟩
  let cleaned := cleanResponse response
  match js.parseMem cleaned with
  | .ok parsed =>
    let updated :=
      if parsed.focusHistory.isEmpty then
        { parsed with focusHistory :=
            repairFocusHistory existing.focusHistory existing.currentFocus parsed.currentFocus }
      else parsed
    let updSaved := { updated with lastUpdated := now }
    ⟨[call], [updSaved], .ok updSaved⟩
  | .error msg =>
    let reason := failReason response msg
    ⟨[call], [failMemory existing reason logFile now], .error reason⟩

-- ─── Storage queries (src/src/storage/queries.ts) ───────────────────────────

/-- One row of the `sessions` table together with its conversation turns. -/
structure SessionRec where
  id : Nat
  projectPath : String
  agent : String
  startedAt : String
  endedAt : Option String
  summary : String
  logFile : String
  turns : List ConversationTurn
deriving DecidableEq

/-- Lexicographic order on code points (SQLite's BINARY collation on the
TEXT timestamp columns, which are ASCII ISO dates). -/
def strLt : List Char → List Char → Bool
  | [], [] => false
  | [], _ :: _ => true
  | _ :: _, [] => false
  | a :: as, b :: bs =>
    if a.toNat < b.toNat then true
    else if a.toNat = b.toNat then strLt as bs
    else false

def strLe (a b : List Char) : Bool := strLt a b || a == b

/-- Stable insert for a descending sort by a string key (SQLite
`ORDER BY started_at DESC`; ties keep table order in this model). -/
def insDescKey (key : α → String) (x : α) : List α → List α
  | [] => [x]
  | y :: ys => if strLe (key y).data (key x).data then x :: y :: ys else y :: insDescKey key x ys

def sortDescKey (key : α → String) (l : List α) : List α := l.foldr (insDescKey key) []

/-- Stable insert for an ascending sort by a string key (`ORDER BY ts ASC`). -/
def insAscKey (key : α → String) (x : α) : List α → List α
  | [] => [x]
  | y :: ys => if strLe (key x).data (key y).data then x :: y :: ys else y :: insAscKey key x ys

def sortAscKey (key : α → String) (l : List α) : List α := l.foldr (insAscKey key) []

/-- `listSessions` (queries.ts lines 195-211) with a project path:
`SELECT * FROM sessions WHERE project_path = ? ORDER BY started_at DESC
LIMIT ?`. -/
def listSessions (sessions : List SessionRec) (projectPath : String) (limit : Nat) :
    List SessionRec :=
  ((sortDescKey (fun s => s.startedAt) (sessions.filter (fun s => s.projectPath = projectPath))).take limit)

/-- `getTurns` (queries.ts lines 224-233): turns of a session ordered by
timestamp ascending. -/
def getTurns (s : SessionRec) : List ConversationTurn := sortAscKey (fun t => t.ts) s.turns

/-- A typed view of the `project` table row (the TEXT columns are parsed by
`parseJson` into these shapes before `getProject` assembles the memory;
the SQLite driver itself is the external collaborator). -/
structure ProjectRow where
  path : String
  name : String
  description : String
  currentFocus : String
  updatedAt : String
  stack : List String
  focusHistory : List String
  pendingTasks : List String
  gotchas : List String
  importantFiles : List ImportantFile
  keyDecisions : List KeyDecision
deriving DecidableEq

/-- `getProject` (queries.ts lines 28-67). -/
def getProject (row : ProjectRow) (sessions : List SessionRec) : ProjectMemory :=
  let recentSessions := (listSessions sessions row.path 5).map
    (fun s => ({ date := s.endedAt.getD s.startedAt, summary := s.summary,
                 logFile := s.logFile } : RecentSession))
  let lastConversation :=
    match listSessions sessions row.path 1 with
    | latest :: _ => getTurns latest
    | [] => []
  { projectName := row.name
    projectPath := row.path
    stack := row.stack
    description := row.description
    keyDecisions := row.keyDecisions
    currentFocus := row.currentFocus
    focusHistory := row.focusHistory
    pendingTasks := row.pendingTasks
    importantFiles := row.importantFiles
    gotchas := row.gotchas
    recentSessions := recentSessions
    lastConversation := lastConversation
    lastUpdated := row.updatedAt }

/-- `finalizeSession` (queries.ts lines 166-193): set `ended_at`, `summary`
and `log_file` on the matching row and insert the given turns. -/
def finalizeList (sessions : List SessionRec) (sessionId : Nat)
    (summary logFile : String) (turns : List ConversationTurn) (now : String) :
    List SessionRec :=
  sessions.map (fun s =>
    if s.id = sessionId then
      { s with endedAt := some now, summary := summary, logFile := logFile,
               turns := s.turns ++ turns }
    else s)

-- ─── Session state tracker and orchestration (src/unnamed/part_003) ─────────

/-- `PendingCompression` marker contents (part_003 lines 1248-1252). -/
structure Pending where
  rawLogPath : String
  logPath : String
  sessionId : Nat
deriving DecidableEq

/--
The durable state one project's run can observe and mutate:
`memory` is the store contents, `sessions` the sessions table, `marker`
the pending-compression marker file (`some none` = present but
unparseable), `rawLogFiles` the raw capture files on disk, `notices` the
console notices printed, `chatCalls` the number of summarizer invocations,
and the webhook fields the fire-and-forget side channel.
-/
structure World where
  memory : Option ProjectMemory
  sessions : List SessionRec
  marker : Option (Option Pending)
  rawLogFiles : List (String × String)
  notices : List String
  chatCalls : Nat
  webhookUrl : Option String
  webhooksFired : Nat
deriving DecidableEq

def lookupFile (files : List (String × String)) (p : String) : Option String :=
  match files.find? (fun kv => kv.1 = p) with
  | some kv => some kv.2
  | none => none

/-- External collaborator inputs of one orchestration run: JS builtins, git
context, the summarizer's reply, and the clock. -/
structure Collab where
  js : Js
  git : Option GitCtx
  response : String
  now : String

/-- `clearPendingCompression` (part_003 lines 1267-1273). -/
def clearPendingCompression (w : World) : World := { w with marker := none }

-- parseRawLog (part_003 lines 1315-1330): the regex cleaning pipeline.

/-- Consume a `[0-9;]*` parameter run (CSI parameters). -/
def csiParams : List Char → List Char × List Char
  | [] => ([], [])
  | c :: cs =>
    if c.isDigit || c == ';' then
      let (p, r) := csiParams cs
      (c :: p, r)
    else ([], c :: cs)

/-- `.replace(/\x1b\[[0-9;]*[a-zA-Z]/g, "")`; fuel is one per consumed
character so `s.length` always suffices. -/
def stripCsiGo : Nat → List Char → List Char
  | _, [] => []
  | 0, s => s
  | fuel + 1, c :: cs =>
    if c = '\x1b' then
      match cs with
      | '[' :: rest =>
        match (csiParams rest).2 with
        | a :: rs => if a.isAlpha then stripCsiGo fuel rs else c :: stripCsiGo fuel cs
        | [] => c :: stripCsiGo fuel cs
      | _ => c :: stripCsiGo fuel cs
    else c :: stripCsiGo fuel cs

def stripCsi (l : List Char) : List Char := stripCsiGo l.length l

/-- `.replace(/\x1b\[[0-9;]*m/g, "")` (the color-only second pass). -/
def stripCsiMGo : Nat → List Char → List Char
  | _, [] => []
  | 0, s => s
  | fuel + 1, c :: cs =>
    if c = '\x1b' then
      match cs with
      | '[' :: rest =>
        match (csiParams rest).2 with
        | a :: rs => if a = 'm' then stripCsiMGo fuel rs else c :: stripCsiMGo fuel cs
        | [] => c :: stripCsiMGo fuel cs
      | _ => c :: stripCsiMGo fuel cs
    else c :: stripCsiMGo fuel cs

def stripCsiM (l : List Char) : List Char := stripCsiMGo l.length l

/-- `.replace(/\r\n/g, "\n")`. -/
def crlf : List Char → List Char
  | '\r' :: '\n' :: rest => '\n' :: crlf rest
  | c :: cs => c :: crlf cs
  | [] => []

/-- `.replace(/[^\x20-\x7E\n\t]/g, "")`. -/
def keepPrintable (l : List Char) : List Char :=
  l.filter (fun c => (32 ≤ c.toNat && c.toNat ≤ 126) || c == '\n' || c == '\t')

/-- `.replace(/\n{3,}/g, "\n\n")`: runs of three or more newlines collapse
to exactly two. -/
def collapseNlGo : Nat → List Char → List Char
  | _, [] => []
  | 0, s => s
  | fuel + 1, '\n' :: '\n' :: rest =>
    '\n' :: '\n' :: collapseNlGo fuel (rest.dropWhile (fun c => c == '\n'))
  | fuel + 1, c :: cs => c :: collapseNlGo fuel cs

def collapseNl (l : List Char) : List Char := collapseNlGo l.length l

/-- `parseRawLog` (part_003 lines 1315-1330) on the raw file contents (the
existence check and read happen at the call site in this model). -/
def parseRawLog (raw : String) : String :=
  ⟨trimL (collapseNl (keepPrintable
    ((crlf (stripCsiM (stripCsi raw.data))).map (fun c => if c == '\r' then '\n' else c))))⟩

def SHORT_MSG : String := "Session too short to compress."

def RECOVERY_NOTICE : String := "Recovering interrupted session from last run..."

/-- `runCompression` (part_003 lines 1332-1399) as a step on the world. -/
def runCompression (c : Collab) (w : World) (transcript projectPath logPath : String)
    (conversationTurns : List ConversationTurn) (sessionId : Option Nat) : World :=
  if transcript = "" ∨ (jsTrim transcript).length < 50 then
    let w1 := { w with notices := w.notices ++ [SHORT_MSG] }
    let w2 :=
      match sessionId with
      | some sid =>
        { w1 with sessions := finalizeList w1.sessions sid SHORT_MSG logPath [] c.now }
      | none => w1
    clearPendingCompression w2
  else
    let existing := w.memory.getD (initMemory projectPath c.now)
    let wLoaded := { w with memory := some existing }
    let r := compressSession c.js c.git existing transcript projectPath logPath c.now false
      c.response
    let w1 := { wLoaded with chatCalls := wLoaded.chatCalls + r.calls.length }
    match r.result with
    | .ok updated =>
      let turns := takeLast 30 conversationTurns
      let upd2 := { updated with lastConversation := turns, lastUpdated := c.now }
      let w2 := { w1 with memory := some upd2 }
      let w3 :=
        match sessionId with
        | some sid =>
          let sessionSummary :=
            Option.getD (Option.map (fun s : RecentSession => s.summary)
              (List.getLast? upd2.recentSessions)) ""
          { w2 with sessions := finalizeList w2.sessions sid sessionSummary logPath turns c.now }
        | none => w2
      let w4 := clearPendingCompression
        { w3 with notices := w3.notices ++ ["Memory updated"] }
      match w4.webhookUrl with
      | some _ => { w4 with webhooksFired := w4.webhooksFired + 1 }
      | none => w4
    | .error reason =>
      let savedMem := Option.getD (List.getLast? r.saves) existing
      let failNotices := w1.notices ++
        ["Compression failed — raw session log preserved", "Reason: " ++ reason]
      { w1 with memory := some savedMem, notices := failNotices }

/-- `checkAndRunPendingCompression` (part_003 lines 1279-1312). -/
def checkAndRunPendingCompression (c : Collab) (w : World) (projectPath : String) : World :=
  match w.marker with
  | none => w
  | some none => { w with marker := none }
  | some (some p) =>
    match lookupFile w.rawLogFiles p.rawLogPath with
    | none => { w with marker := none }
    | some raw =>
      let w1 := { w with notices := w.notices ++ [RECOVERY_NOTICE] }
      let transcript := parseRawLog raw
      let w2 :=
        if transcript ≠ "" ∧ 50 ≤ (jsTrim transcript).length then
          runCompression c w1 transcript projectPath p.logPath [] (some p.sessionId)
        else
          { w1 with sessions :=
              finalizeList w1.sessions p.sessionId SHORT_MSG p.logPath [] c.now }
      clearPendingCompression w2

-- ─── Concrete instances used by witnesses and counterexamples ───────────────

/-- A JS-builtin record whose parser always fails (witness input). -/
def jsErr : Js :=
  ⟨fun _ => "", fun _ => "", fun _ => "", fun _ => Except.error "boom"⟩

def witMem : ProjectMemory := initMemory "proj" "2024-01-01T00:00:00Z"

def witCollab : Collab := ⟨jsErr, none, "", "2024-01-05T00:00:00Z"⟩

def witSession : SessionRec :=
  ⟨1, "proj", "bash", "2024-01-04T00:00:00Z", none, "", "", []⟩

def witWorld : World := ⟨none, [witSession], none, [], [], 0, none, 0⟩

def witPending : Pending := ⟨"raw.log", "sess.log", 1⟩

/-- A world holding a pending marker whose raw log file is missing. -/
def staleWorld : World := ⟨none, [witSession], some (some witPending), [], [], 0, none, 0⟩

/-- Memory whose current focus equals the topic passed in the C10 witness. -/
def focMem : ProjectMemory := { witMem with currentFocus := "api refactor" }

/-- Memory with a 30-character project name and nothing else set: rendered at
tier 1 it is a single 39-character line with no newline. -/
def longNameMem : ProjectMemory :=
  { witMem with projectName := "aaaaaaaaaaaaaaaaaaaaaaaaaaaaaa" }

/-- Tier-1 options with an explicit 5-token budget (5 × 4 = 20 characters). -/
def smallBudget : ContextOptions := { tier := some 1, maxTokens := some 5, focus := none }

/-- The identity date formatter (no session dates are rendered in the
concrete instances that use it). -/
def idDate : String → String := fun s => s

/-- `getProject` input with two finished sessions, the second started later. -/
def twoSessionRow : ProjectRow :=
  ⟨"proj", "proj", "", "", "2024-01-03T00:00:00Z", [], [], [], [], [], []⟩

def sessEarly : SessionRec :=
  ⟨1, "proj", "bash", "2024-01-01T10:00:00Z", some "2024-01-01T11:00:00Z",
   "first", "log1", []⟩

def sessLate : SessionRec :=
  ⟨2, "proj", "bash", "2024-01-02T10:00:00Z", some "2024-01-02T11:00:00Z",
   "second", "log2", []⟩

/-- Focus set to "aa", then "bb", then back to "aa" (the §8 scenario). -/
def focusChain : ProjectMemory :=
  (setFocus (setFocus (setFocus (initMemory "p" "t0") "aa" "t1").1 "bb" "t2").1
    "aa" "t3").1

-- ─── Lemmas ────────────────────────────────────────────────────────────────

theorem findClose_length : ∀ (s p q : List Char), findClose s = some (p, q) → q.length < s.length := by
  intro s
  induction s with
  | nil => intro p q h; simp [findClose] at h
  | cons c cs ih =>
    intro p q h
    simp only [findClose] at h
    split at h
    · rename_i hci
      obtain ⟨hp, hq⟩ := Prod.mk.injEq .. ▸ (Option.some.injEq .. ▸ h)
      subst hq
      have hlen : closeTagL.length ≤ (c :: cs).length := by
        clear h hp ih
        revert hci
        generalize closeTagL = t
        generalize (c :: cs) = l
        intro hci
        induction t generalizing l with
        | nil => simp
        | cons a as iht =>
          cases l with
          | nil => simp [ciStarts] at hci
          | cons b bs =>
            simp only [ciStarts, Bool.and_eq_true] at hci
            have := iht bs hci.2
            simpa using Nat.succ_le_succ this
      have : ((c :: cs).drop closeTagL.length).length = (c :: cs).length - closeTagL.length := by
        simp
      rw [this]
      have hpos : 0 < closeTagL.length := by simp [closeTagL]
      omega
    · rename_i hci
      cases hfc : findClose cs with
      | none => rw [hfc] at h; simp at h
      | some pq =>
        rw [hfc] at h
        obtain ⟨p', q'⟩ := pq
        simp only [Option.some.injEq, Prod.mk.injEq] at h
        have := ih p' q' hfc
        have hq : q = q' := h.2.symm ▸ rfl
        subst hq
        simpa using Nat.lt_succ_of_lt this

/-- The amount of fuel does not matter as long as it covers the input. -/
theorem skipGo_congr : ∀ (f1 : Nat) (s : List Char) (f2 : Nat),
    s.length ≤ f1 → s.length ≤ f2 → skipGo f1 s = skipGo f2 s := by
  intro f1
  induction f1 with
  | zero =>
    intro s f2 h1 _
    have : s = [] := List.length_eq_zero.mp (Nat.le_zero.mp h1)
    subst this
    cases f2 <;> simp [skipGo]
  | succ g1 ih =>
    intro s f2 h1 h2
    cases s with
    | nil => cases f2 <;> simp [skipGo]
    | cons c cs =>
      cases f2 with
      | zero => simp at h2
      | succ g2 =>
        simp only [skipGo]
        split
        · cases hfc : findClose ((c :: cs).drop openTagL.length) with
          | none => simp
          | some pq =>
            obtain ⟨p, post⟩ := pq
            have hlt := findClose_length _ _ _ hfc
            have hd : ((c :: cs).drop openTagL.length).length ≤ cs.length + 1 := by
              simp only [List.length_drop, List.length_cons]
              omega
            have hpost1 : post.length ≤ g1 := by
              simp only [List.length_cons] at h1
              omega
            have hpost2 : post.length ≤ g2 := by
              simp only [List.length_cons] at h2
              omega
            simp [ih post g2 hpost1 hpost2]
        · have hcs1 : cs.length ≤ g1 := by
            simp only [List.length_cons] at h1
            omega
          have hcs2 : cs.length ≤ g2 := by
            simp only [List.length_cons] at h2
            omega
          simp [ih cs g2 hcs1 hcs2]

/-- Unfolding `skipAux` when the open marker does not start here. -/
theorem skipAux_cons_noopen (c : Char) (cs : List Char)
    (h : ciStarts openTagL (c :: cs) = false) :
    skipAux (c :: cs) = c :: skipAux cs := by
  simp [skipAux, skipGo, h]

/-- Unfolding `skipAux` when a full marker pair starts here. -/
theorem skipAux_cons_open (c : Char) (cs : List Char) (p post : List Char)
    (ho : ciStarts openTagL (c :: cs) = true)
    (hc : findClose ((c :: cs).drop openTagL.length) = some (p, post)) :
    skipAux (c :: cs) = placeholderL ++ skipAux post := by
  have hlt := findClose_length _ _ _ hc
  have hd : ((c :: cs).drop openTagL.length).length ≤ cs.length + 1 := by
    simp only [List.length_drop, List.length_cons]
    omega
  have hle : post.length ≤ cs.length := by omega
  simp only [skipAux, List.length_cons, skipGo, ho, if_true, hc]
  exact congrArg (placeholderL ++ ·) (skipGo_congr cs.length post post.length hle (Nat.le_refl _))

example : applySkipFilter "A <memex:skip>B</memex:skip> C" =
    "A [content excluded by <memex:skip>] C" := by decide

theorem takeLast_length_le (n : Nat) (l : List α) : (takeLast n l).length ≤ n := by
  simp only [takeLast, List.length_drop]
  omega

theorem takeLast_eq_self (n : Nat) (l : List α) (h : l.length ≤ n) : takeLast n l = l := by
  simp only [takeLast]
  have : l.length - n = 0 := by omega
  simp [this]

theorem nodup_takeLast (n : Nat) (l : List α) (h : l.Nodup) : (takeLast n l).Nodup :=
  List.Nodup.sublist (List.drop_sublist _ _) h

theorem not_mem_takeLast (n : Nat) (l : List α) (x : α) (h : x ∉ l) :
    x ∉ takeLast n l := fun hx => h (List.mem_of_mem_drop hx)

-- ─── Startup recovery: claims C4 and C5 ─────────────────────────────────────

/--
C4: if a pending-compression marker exists but the raw log it references
does not, `checkAndRunPendingCompression` removes the marker and returns:
no compression runs, no "recovering interrupted session" notice is printed,
and memory and session records are untouched (the result differs from the
input world only in the cleared marker).
-/
theorem claim_C4 (c : Collab) (w : World) (projectPath : String) (p : Pending)
    (h1 : w.marker = some (some p))
    (h2 : lookupFile w.rawLogFiles p.rawLogPath = none) :
    checkAndRunPendingCompression c w projectPath = { w with marker := none } := by
  unfold checkAndRunPendingCompression
  rw [h1]
  simp only [h2]

theorem claim_C4_witness :
    staleWorld.marker = some (some witPending) ∧
    lookupFile staleWorld.rawLogFiles witPending.rawLogPath = none ∧
    checkAndRunPendingCompression witCollab staleWorld "proj" =
      { staleWorld with marker := none } :=
  ⟨rfl, rfl, claim_C4 witCollab staleWorld "proj" witPending rfl rfl⟩

/-- After any `checkAndRunPendingCompression` run the marker file is gone:
every branch either found no marker or explicitly removes it. -/
theorem marker_after_check (c : Collab) (w : World) (projectPath : String) :
    (checkAndRunPendingCompression c w projectPath).marker = none := by
  unfold checkAndRunPendingCompression
  cases hm : w.marker with
  | none => exact hm
  | some o =>
    cases o with
    | none => rfl
    | some p =>
      cases hlk : lookupFile w.rawLogFiles p.rawLogPath with
      | none => simp [hlk]
      | some raw => simp [hlk, clearPendingCompression]

/--
C5: running `checkAndRunPendingCompression` a second time after a completed
first run is a no-op — the first run always ends with the marker cleared,
and a run that finds no marker returns the world unchanged (whatever the
second run's collaborators reply).
-/
theorem claim_C5 (c c' : Collab) (w : World) (projectPath : String) :
    checkAndRunPendingCompression c' (checkAndRunPendingCompression c w projectPath)
      projectPath = checkAndRunPendingCompression c w projectPath := by
  have h := marker_after_check c w projectPath
  generalize hgen : checkAndRunPendingCompression c w projectPath = w1 at h ⊢
  unfold checkAndRunPendingCompression
  rw [h]

-- ─── Short transcripts: claim C2 ────────────────────────────────────────────

/--
C2: a transcript that is empty or trims to fewer than 50 characters makes
`runCompression` return without invoking the summarizer (`chatCalls`
unchanged) and without touching memory; the pending marker is cleared, and
when a session id is supplied that session is finalized with the
"Session too short to compress." placeholder (and without one the session
table is untouched).
-/
theorem claim_C2 (c : Collab) (w : World)
    (transcript projectPath logPath : String)
    (turns : List ConversationTurn) (sessionId : Option Nat)
    (h : (jsTrim transcript).length < 50) :
    (runCompression c w transcript projectPath logPath turns sessionId).chatCalls
        = w.chatCalls
    ∧ (runCompression c w transcript projectPath logPath turns sessionId).memory
        = w.memory
    ∧ (runCompression c w transcript projectPath logPath turns sessionId).marker
        = none
    ∧ (∀ sid, sessionId = some sid →
        (runCompression c w transcript projectPath logPath turns sessionId).sessions
          = finalizeList w.sessions sid SHORT_MSG logPath [] c.now)
    ∧ (sessionId = none →
        (runCompression c w transcript projectPath logPath turns sessionId).sessions
          = w.sessions) := by
  have hcond : transcript = "" ∨ (jsTrim transcript).length < 50 := Or.inr h
  unfold runCompression
  rw [if_pos hcond]
  cases sessionId with
  | none =>
    refine ⟨rfl, rfl, rfl, ?_, fun _ => rfl⟩
    intro sid hsid
    cases hsid
  | some sid =>
    refine ⟨rfl, rfl, rfl, ?_, ?_⟩
    · intro sid' hsid
      cases hsid
      rfl
    · intro hn
      cases hn

theorem claim_C2_witness :
    (jsTrim "hi").length < 50 ∧
    (runCompression witCollab witWorld "hi" "proj" "sess.log" [] (some 1)).chatCalls = 0 ∧
    (runCompression witCollab witWorld "hi" "proj" "sess.log" [] (some 1)).marker = none ∧
    (runCompression witCollab witWorld "hi" "proj" "sess.log" [] (some 1)).sessions
      = finalizeList witWorld.sessions 1 SHORT_MSG "sess.log" [] witCollab.now := by
  have h := claim_C2 witCollab witWorld "hi" "proj" "sess.log" [] (some 1) (by decide)
  exact ⟨by decide, h.1, h.2.2.1, h.2.2.2.1 1 rfl⟩

-- ─── setFocus no-op: claim C10 ──────────────────────────────────────────────

/--
C10: calling `setFocus` with the topic already equal to `currentFocus` is a
complete no-op — the loaded memory is returned unchanged (same
`currentFocus`, `focusHistory` and `lastUpdated`) and no save happens.
-/
theorem claim_C10 (m : ProjectMemory) (topic now : String)
    (h : m.currentFocus = topic) :
    setFocus m topic now = (m, false) := by
  simp [setFocus, h]

theorem claim_C10_witness :
    focMem.currentFocus = "api refactor" ∧
    setFocus focMem "api refactor" "2024-02-02T00:00:00Z" = (focMem, false) :=
  ⟨rfl, claim_C10 focMem "api refactor" "2024-02-02T00:00:00Z" rfl⟩

-- ─── Parse-failure handling: claim C3 ───────────────────────────────────────

theorem startsL_append_self : ∀ (p t : List Char), startsL p (p ++ t) = true := by
  intro p
  induction p with
  | nil => intro t; rfl
  | cons a as ih => intro t; simp [startsL, ih]

theorem hasSub_suffix (n : List Char) : ∀ (p : List Char), hasSub n (p ++ n) = true := by
  intro p
  induction p with
  | nil =>
    cases n with
    | nil => rfl
    | cons c cs =>
      have h := startsL_append_self (c :: cs) []
      rw [List.append_nil] at h
      simp [hasSub, h]
  | cons c p ih => simp [hasSub, ih]

theorem getLast?_drop : ∀ (k : Nat) (l : List α), k < l.length →
    (l.drop k).getLast? = l.getLast? := by
  intro k
  induction k with
  | zero => intro l _; rfl
  | succ j ih =>
    intro l hl
    cases l with
    | nil => simp at hl
    | cons x xs =>
      simp only [List.length_cons] at hl
      have hx : j < xs.length := by omega
      have hne : xs ≠ [] := by
        intro he
        rw [he] at hx
        simp at hx
      rw [List.drop_succ_cons, ih xs hx]
      cases xs with
      | nil => exact absurd rfl hne
      | cons y ys => simp [List.getLast?_cons_cons]

theorem getLast?_takeLast (n : Nat) (l : List α) (hn : 0 < n) :
    (takeLast n l).getLast? = l.getLast? := by
  by_cases h : l.length ≤ n
  · rw [takeLast_eq_self n l h]
  · exact getLast?_drop (l.length - n) l (by omega)

/--
C3: on a parse failure (the collaborator response is empty or does not
parse as JSON after fence unwrapping), `compressSession` persists exactly
one memory via `saveMemory`, namely the existing memory with one
failure-flagged entry appended to `recentSessions` (capped at the last 5,
the new entry last), the entry's summary contains the diagnostic reason,
the thrown error carries that same reason, and the summarizer was called
exactly once.
-/
theorem claim_C3 (js : Js) (git : Option GitCtx) (existing : ProjectMemory)
    (transcript projectPath logFile now response msg : String) (snap : Bool)
    (h : js.parseMem (cleanResponse response) = Except.error msg) :
    (compressSession js git existing transcript projectPath logFile now snap
        response).result = Except.error (failReason response msg)
    ∧ (compressSession js git existing transcript projectPath logFile now snap
        response).saves
        = [failMemory existing (failReason response msg) logFile now]
    ∧ (failMemory existing (failReason response msg) logFile now).recentSessions
        = takeLast 5 (existing.recentSessions
            ++ [failEntry (failReason response msg) logFile now])
    ∧ (failMemory existing (failReason response msg) logFile now).recentSessions.getLast?
        = some (failEntry (failReason response msg) logFile now)
    ∧ hasSub (failReason response msg).data
        (failEntry (failReason response msg) logFile now).summary.data = true
    ∧ (compressSession js git existing transcript projectPath logFile now snap
        response).calls.length = 1 := by
  have hcap : (failMemory existing (failReason response msg) logFile now).recentSessions
      = takeLast 5 (existing.recentSessions
          ++ [failEntry (failReason response msg) logFile now]) := by
    simp only [failMemory]
    by_cases hlen : (existing.recentSessions
        ++ [failEntry (failReason response msg) logFile now]).length > 5
    · rw [if_pos hlen]
    · rw [if_neg hlen]
      exact (takeLast_eq_self 5 _ (by omega)).symm
  refine ⟨?_, ?_, hcap, ?_, ?_, ?_⟩
  · simp [compressSession, h]
  · simp [compressSession, h]
  · rw [hcap, getLast?_takeLast 5 _ (by omega)]
    simp
  · unfold failEntry
    show hasSub (failReason response msg).data
      (FAIL_SUMMARY_PREFIX ++ failReason response msg).data = true
    have : (FAIL_SUMMARY_PREFIX ++ failReason response msg).data
        = FAIL_SUMMARY_PREFIX.data ++ (failReason response msg).data := rfl
    rw [this]
    exact hasSub_suffix _ _
  · simp [compressSession, h]

theorem claim_C3_witness :
    jsErr.parseMem (cleanResponse "not json") = Except.error "boom" ∧
    (compressSession jsErr none witMem "t" "proj" "sess.log" "2024-01-05T00:00:00Z"
        false "not json").result
      = Except.error (PARSE_FAIL_PREFIX ++ "boom") ∧
    (compressSession jsErr none witMem "t" "proj" "sess.log" "2024-01-05T00:00:00Z"
        false "not json").calls.length = 1 := by
  have h := claim_C3 jsErr none witMem "t" "proj" "sess.log" "2024-01-05T00:00:00Z"
    "not json" "boom" false rfl
  refine ⟨rfl, ?_, h.2.2.2.2.2⟩
  have hr : failReason "not json" "boom" = PARSE_FAIL_PREFIX ++ "boom" := by decide
  exact hr ▸ h.1

-- ─── Focus history: claim C6 (corrected) ────────────────────────────────────

theorem nodup_append_single (l : List α) (x : α) (hl : l.Nodup) (hx : x ∉ l) :
    (l ++ [x]).Nodup := by
  simp [List.nodup_append, hl, hx]

/--
C6 as amended: every `setFocus` step and every `compressSession`
focus-history repair keeps `focusHistory` at ≤ 10 pairwise-distinct
entries, changes it only by appending the previous focus and keeping the
last 10 (insertion order), and never introduces the new focus value into
the history — so the history avoids the current focus whenever the new
focus does not already occur in it.  (The original "never contains the
current focus" is refuted by `claim_C6_counterexample`: re-setting the
focus to an old value leaves that value in the history.)
-/
theorem claim_C6 :
    (∀ (m : ProjectMemory) (topic now : String),
      m.focusHistory.Nodup → m.focusHistory.length ≤ 10 →
      ((setFocus m topic now).1.currentFocus = topic
      ∧ (setFocus m topic now).1.focusHistory.length ≤ 10
      ∧ (setFocus m topic now).1.focusHistory.Nodup
      ∧ ((setFocus m topic now).1.focusHistory = m.focusHistory
         ∨ (setFocus m topic now).1.focusHistory
            = takeLast 10 (m.focusHistory ++ [m.currentFocus]))
      ∧ (topic ∉ m.focusHistory → topic ∉ (setFocus m topic now).1.focusHistory)))
    ∧ (∀ (hist : List String) (prev next : String),
      hist.Nodup → hist.length ≤ 10 →
      ((repairFocusHistory hist prev next).length ≤ 10
      ∧ (repairFocusHistory hist prev next).Nodup
      ∧ (repairFocusHistory hist prev next = hist
         ∨ repairFocusHistory hist prev next = takeLast 10 (hist ++ [prev]))
      ∧ (next ∉ hist → next ∉ repairFocusHistory hist prev next))) := by
  constructor
  · intro m topic now hnd hlen
    unfold setFocus
    by_cases heq : m.currentFocus = topic
    · simp only [heq, if_pos rfl]
      exact ⟨heq, hlen, hnd, Or.inl rfl, fun h => h⟩
    · rw [if_neg heq]
      by_cases hpush : m.currentFocus ≠ "" ∧ m.currentFocus ∉ m.focusHistory
      · rw [if_pos hpush]
        refine ⟨rfl, ?_, ?_, Or.inr rfl, ?_⟩
        · exact takeLast_length_le _ _
        · exact nodup_takeLast _ _ (nodup_append_single _ _ hnd hpush.2)
        · intro hni
          apply not_mem_takeLast
          simp only [List.mem_append, List.mem_singleton]
          rintro (hc | hc)
          · exact hni hc
          · exact heq hc.symm
      · rw [if_neg hpush]
        exact ⟨rfl, hlen, hnd, Or.inl rfl, fun h => h⟩
  · intro hist prev next hnd hlen
    unfold repairFocusHistory
    by_cases hcond : prev ≠ "" ∧ prev ≠ next ∧ prev ∉ hist
    · rw [if_pos hcond]
      refine ⟨takeLast_length_le _ _,
        nodup_takeLast _ _ (nodup_append_single _ _ hnd hcond.2.2), Or.inr rfl, ?_⟩
      intro hni
      apply not_mem_takeLast
      simp only [List.mem_append, List.mem_singleton]
      rintro (hc | hc)
      · exact hni hc
      · exact hcond.2.1 hc.symm
    · rw [if_neg hcond]
      exact ⟨hlen, hnd, Or.inl rfl, fun h => h⟩

theorem claim_C6_witness :
    witMem.focusHistory.Nodup ∧ witMem.focusHistory.length ≤ 10 ∧
    (setFocus witMem "checkout flow" "2024-01-06T00:00:00Z").1.currentFocus
      = "checkout flow" ∧
    "checkout flow" ∉ (setFocus witMem "checkout flow" "2024-01-06T00:00:00Z").1.focusHistory := by
  have h := claim_C6.1 witMem "checkout flow" "2024-01-06T00:00:00Z"
    (by decide) (by decide)
  exact ⟨by decide, by decide, h.1, h.2.2.2.2 (by decide)⟩

/--
Counterexample to C6 as stated: set focus to "aa", then "bb", then back to
"aa" — the resulting memory has `currentFocus = "aa"` while `"aa"` is still
in `focusHistory`, so the history does contain the current focus.
-/
theorem claim_C6_counterexample :
    focusChain.currentFocus = "aa" ∧ "aa" ∈ focusChain.focusHistory := by
  refine ⟨by decide, by decide⟩

-- ─── recentSessions shape: claim C7 (code bug in getProject ordering) ───────

/--
C7: `getProject` always returns at most 5 `recentSessions` (the `LIMIT 5`
query), but they are ordered newest FIRST — `listSessions` orders by
`started_at DESC` and `getProject` never reverses — contradicting the
claimed oldest-to-newest order: with two finished sessions the later one
comes out first.  (The rest of the code — `recentSessions.at(-1)` as "last
session" in the context builder, push-then-cap in `compressSession` —
assumes newest last, so this is a slip in `getProject`.)
-/
theorem claim_C7 :
    (∀ (row : ProjectRow) (sessions : List SessionRec),
      (getProject row sessions).recentSessions.length ≤ 5)
    ∧ (getProject twoSessionRow [sessEarly, sessLate]).recentSessions
        = [⟨"2024-01-02T11:00:00Z", "second", "log2"⟩,
           ⟨"2024-01-01T11:00:00Z", "first", "log1"⟩] := by
  constructor
  · intro row sessions
    simp only [getProject, List.length_map, listSessions]
    exact List.length_take_le _ _
  · decide

-- ─── Context budget and truncation: claims C8 and C9 ────────────────────────

theorem truncCore_length_le (cut : List Char) (L : Nat) :
    (truncCore cut L).length ≤ cut.length := by
  unfold truncCore
  cases lastNlIdx cut with
  | none => exact Nat.le_refl _
  | some j =>
    show (if 5 * j > 4 * L then cut.take j else cut).length ≤ cut.length
    by_cases hj : 5 * j > 4 * L
    · rw [if_pos hj]
      simp [List.length_take]
    · rw [if_neg hj]

theorem endsWithB_append (x n : String) : endsWithB n (x ++ n) = true := by
  cases x with
  | mk xd =>
    cases n with
    | mk nd =>
      show startsL nd.reverse (xd ++ nd).reverse = true
      rw [List.reverse_append]
      exact startsL_append_self _ _

theorem applyLimit_length_le (t : String) (L : Nat) :
    (applyLimit t L).length ≤ L + truncNotice.length := by
  by_cases h : t.length ≤ L
  · simp only [applyLimit, if_pos h]
    omega
  · simp only [applyLimit, if_neg h]
    rw [String.length_append]
    have h1 : (String.mk (truncCore (t.data.take L) L)).length
        = (truncCore (t.data.take L) L).length := rfl
    rw [h1]
    have h2 := truncCore_length_le (t.data.take L) L
    have h3 : (t.data.take L).length ≤ L := List.length_take_le _ _
    omega

theorem applyLimit_of_le (t : String) (L : Nat) (h : t.length ≤ L) :
    applyLimit t L = t := by
  simp [applyLimit, h]

theorem applyLimit_endsWith (t : String) (L : Nat) (h : L < t.length) :
    endsWithB truncNotice (applyLimit t L) = true := by
  simp only [applyLimit, if_neg (Nat.not_le.mpr h)]
  exact endsWithB_append _ _

/--
C8 as amended: at every tier and budget, `buildContext` output is at most
the effective character budget (maxTokens × 4 when a nonzero maxTokens is
given, else 300 / 2000 / 35000 for tiers 1 / 2 / 3) PLUS the 50-character
appended truncation notice; when the un-truncated rendering fits the
budget the output is exactly that rendering (so no notice is spuriously
appended), and when it exceeds the budget the output ends with the fixed
truncation notice.  (The original "output length ≤ budget" is refuted by
`claim_C8_counterexample`: the notice is appended after cutting to the
budget, pushing the total past it.)
-/
theorem claim_C8 (fmtDate : String → String) (m : ProjectMemory) (o : ContextOptions) :
    (buildContext fmtDate m o).length ≤ effectiveCharLimit o + truncNotice.length
    ∧ ((renderContext fmtDate m o).length ≤ effectiveCharLimit o →
        buildContext fmtDate m o = renderContext fmtDate m o)
    ∧ (effectiveCharLimit o < (renderContext fmtDate m o).length →
        endsWithB truncNotice (buildContext fmtDate m o) = true) :=
  ⟨applyLimit_length_le _ _,
   fun h => applyLimit_of_le _ _ h,
   fun h => applyLimit_endsWith _ _ h⟩

theorem claim_C8_witness :
    ((renderContext idDate witMem {}).length ≤ effectiveCharLimit {}
      ∧ buildContext idDate witMem {} = renderContext idDate witMem {})
    ∧ (effectiveCharLimit smallBudget
          < (renderContext idDate longNameMem smallBudget).length
      ∧ endsWithB truncNotice (buildContext idDate longNameMem smallBudget) = true) :=
  ⟨⟨by decide, (claim_C8 idDate witMem {}).2.1 (by decide)⟩,
   ⟨by decide, (claim_C8 idDate longNameMem smallBudget).2.2 (by decide)⟩⟩

/--
Counterexample to C8 as stated: with a 5-token budget (20 characters) and a
single 39-character line, the `buildContext` output is 70 characters long —
the 20-character cut plus the 50-character notice — exceeding the budget.
-/
theorem claim_C8_counterexample :
    effectiveCharLimit smallBudget = tokensToChars 5
    ∧ tokensToChars 5 < (buildContext idDate longNameMem smallBudget).length := by
  refine ⟨by decide, by decide⟩

theorem lastNlIdx_lt (l : List Char) : ∀ j, lastNlIdx l = some j → j < l.length := by
  induction l with
  | nil => intro j h; simp [lastNlIdx] at h
  | cons c cs ih =>
    intro j h
    simp only [lastNlIdx] at h
    cases hcs : lastNlIdx cs with
    | some j' =>
      rw [hcs] at h
      cases h
      have := ih j' hcs
      simp only [List.length_cons]
      omega
    | none =>
      rw [hcs] at h
      by_cases hc : c = '\n'
      · rw [if_pos hc] at h
        cases h
        simp
      · rw [if_neg hc] at h
        cases h

theorem lastNlIdx_get (l : List Char) : ∀ j, lastNlIdx l = some j →
    l.get? j = some '\n' := by
  induction l with
  | nil => intro j h; simp [lastNlIdx] at h
  | cons c cs ih =>
    intro j h
    simp only [lastNlIdx] at h
    cases hcs : lastNlIdx cs with
    | some j' =>
      rw [hcs] at h
      cases h
      simpa using ih j' hcs
    | none =>
      rw [hcs] at h
      by_cases hc : c = '\n'
      · rw [if_pos hc] at h
        cases h
        simp [hc]
      · rw [if_neg hc] at h
        cases h

/--
C9 as amended: when `buildContext` truncates, the cut happens at the last
newline at or before the budget ONLY when that newline lies past 80% of
the budget (`5 * index > 4 * budget`); in that case the retained prefix
ends just before a newline of the rendering.  Otherwise — the last newline
too early, or no newline at all in the first budget-many characters — the
text is cut exactly at the budget, possibly mid-line.  The notice is
appended in every truncation case.  (The original "always cuts at the last
newline, no line is ever cut in the middle" is refuted by
`claim_C9_counterexample`.)
-/
theorem claim_C9 (fmtDate : String → String) (m : ProjectMemory) (o : ContextOptions)
    (h : effectiveCharLimit o < (renderContext fmtDate m o).length) :
    (∀ j, lastNlIdx ((renderContext fmtDate m o).data.take (effectiveCharLimit o)) = some j →
      5 * j > 4 * effectiveCharLimit o →
      buildContext fmtDate m o
        = String.mk (((renderContext fmtDate m o).data.take (effectiveCharLimit o)).take j)
            ++ truncNotice
      ∧ (renderContext fmtDate m o).data.get? j = some '\n')
    ∧ (∀ j, lastNlIdx ((renderContext fmtDate m o).data.take (effectiveCharLimit o)) = some j →
      ¬ (5 * j > 4 * effectiveCharLimit o) →
      buildContext fmtDate m o
        = String.mk ((renderContext fmtDate m o).data.take (effectiveCharLimit o))
            ++ truncNotice)
    ∧ (lastNlIdx ((renderContext fmtDate m o).data.take (effectiveCharLimit o)) = none →
      buildContext fmtDate m o
        = String.mk ((renderContext fmtDate m o).data.take (effectiveCharLimit o))
            ++ truncNotice) := by
  refine ⟨?_, ?_, ?_⟩
  · intro j hj hcut
    constructor
    · simp only [buildContext, applyLimit, if_neg (Nat.not_le.mpr h), truncCore, hj,
        if_pos hcut]
    · have hlt := lastNlIdx_lt _ j hj
      have hget := lastNlIdx_get _ j hj
      rwa [List.get?_take] at hget
      calc j < ((renderContext fmtDate m o).data.take (effectiveCharLimit o)).length := hlt
        _ ≤ effectiveCharLimit o := List.length_take_le _ _
  · intro j hj hcut
    simp only [buildContext, applyLimit, if_neg (Nat.not_le.mpr h), truncCore, hj,
      if_neg hcut]
  · intro hj
    simp only [buildContext, applyLimit, if_neg (Nat.not_le.mpr h), truncCore, hj]

theorem claim_C9_witness :
    effectiveCharLimit smallBudget < (renderContext idDate longNameMem smallBudget).length
    ∧ buildContext idDate longNameMem smallBudget
        = String.mk ((renderContext idDate longNameMem smallBudget).data.take
            (effectiveCharLimit smallBudget)) ++ truncNotice := by
  have h := claim_C9 idDate longNameMem smallBudget (by decide)
  exact ⟨by decide, h.2.2 (by decide)⟩

/--
Counterexample to C9 as stated: with a 20-character budget the rendering is
a single 39-character line containing no newline at all, yet `buildContext`
truncates — the retained prefix "Project: aaaaaaaaaaa" stops mid-line at
exactly the budget, not at any newline.
-/
theorem claim_C9_counterexample :
    effectiveCharLimit smallBudget < (renderContext idDate longNameMem smallBudget).length
    ∧ '\n' ∉ (renderContext idDate longNameMem smallBudget).data
    ∧ buildContext idDate longNameMem smallBudget
        = "Project: aaaaaaaaaaa" ++ truncNotice := by
  refine ⟨by decide, by decide, by decide⟩

-- ─── Skip-marker redaction: claim C1 ────────────────────────────────────────

theorem ciStarts_append_self : ∀ (p t : List Char), ciStarts p (p ++ t) = true := by
  intro p
  induction p with
  | nil => intro t; rfl
  | cons a as ih => intro t; simp [ciStarts, ih]

/-- Positions strictly inside a segment with no open marker are copied
through by the scanner unchanged. -/
theorem skipAux_no_open_append : ∀ (a rest : List Char),
    (∀ n, n < a.length → ciStarts openTagL ((a ++ rest).drop n) = false) →
    skipAux (a ++ rest) = a ++ skipAux rest := by
  intro a
  induction a with
  | nil => intro rest _; rfl
  | cons c as ih =>
    intro rest h
    have h0 : ciStarts openTagL (c :: (as ++ rest)) = false := by
      have := h 0 (by simp)
      simpa using this
    rw [List.cons_append, skipAux_cons_noopen _ _ h0, ih rest ?_]
    · rfl
    · intro n hn
      have := h (n + 1) (by simp only [List.length_cons]; omega)
      simpa using this

/-- Unfolding equation of `findClose` on a nonempty list. -/
theorem findClose_cons (c : Char) (cs : List Char) :
    findClose (c :: cs) =
      if ciStarts closeTagL (c :: cs) then some ([], (c :: cs).drop closeTagL.length)
      else
        match findClose cs with
        | some (p, q) => some (c :: p, q)
        | none => none := rfl

theorem findClose_self (tail : List Char) :
    findClose (closeTagL ++ tail) = some ([], tail) := by
  have hcons : closeTagL ++ tail = '<' :: ("/memex:skip>".data ++ tail) := rfl
  have hci : ciStarts closeTagL ('<' :: ("/memex:skip>".data ++ tail)) = true := by
    have h := ciStarts_append_self closeTagL tail
    rwa [hcons] at h
  rw [hcons, findClose_cons, hci]
  rfl

theorem findClose_skip : ∀ (b tail : List Char),
    (∀ n, n < b.length → ciStarts closeTagL ((b ++ (closeTagL ++ tail)).drop n) = false) →
    findClose (b ++ (closeTagL ++ tail)) = some (b, tail) := by
  intro b
  induction b with
  | nil => intro tail _; simpa using findClose_self tail
  | cons c bs ih =>
    intro tail h
    have h0 : ciStarts closeTagL (c :: (bs ++ (closeTagL ++ tail))) = false := by
      have := h 0 (by simp)
      simpa using this
    rw [List.cons_append, findClose_cons, h0, ih tail ?_]
    · rfl
    intro n hn
    have := h (n + 1) (by simp only [List.length_cons]; omega)
    simpa using this

/--
C1: `applySkipFilter` replaces a `<memex:skip>…</memex:skip>` span
(case-insensitive markers, no open marker before it, no close marker
inside it) wholesale by the fixed placeholder while copying the
surrounding text unchanged and continuing after the close marker; on the
spec's example transcript it produces exactly the expected string; and
`compressSession` builds its single summarization call from
`applySkipFilter transcript` — only the filtered transcript reaches the
summarizer.
-/
theorem claim_C1 :
    (∀ (a b c : List Char),
      (∀ n, n < a.length →
        ciStarts openTagL ((a ++ (openTagL ++ (b ++ (closeTagL ++ c)))).drop n) = false) →
      (∀ n, n < b.length →
        ciStarts closeTagL ((b ++ (closeTagL ++ c)).drop n) = false) →
      skipAux (a ++ (openTagL ++ (b ++ (closeTagL ++ c))))
        = a ++ (placeholderL ++ skipAux c))
    ∧ applySkipFilter "A <memex:skip>B</memex:skip> C"
        = "A [content excluded by <memex:skip>] C"
    ∧ (∀ (js : Js) (git : Option GitCtx) (existing : ProjectMemory)
        (transcript projectPath logFile now response : String) (snap : Bool),
        (compressSession js git existing transcript projectPath logFile now snap
            response).calls
          = [⟨mkUserContent js existing git (applySkipFilter transcript)
                projectPath logFile now snap, SYSTEM_PROMPT⟩]) := by
  refine ⟨?_, by decide, ?_⟩
  · intro a b c ha hb
    rw [skipAux_no_open_append a _ ha]
    have hcons : openTagL ++ (b ++ (closeTagL ++ c))
        = '<' :: ("memex:skip>".data ++ (b ++ (closeTagL ++ c))) := rfl
    have ho : ciStarts openTagL
        ('<' :: ("memex:skip>".data ++ (b ++ (closeTagL ++ c)))) = true := by
      have h := ciStarts_append_self openTagL (b ++ (closeTagL ++ c))
      rwa [hcons] at h
    have hfc : findClose
        (('<' :: ("memex:skip>".data ++ (b ++ (closeTagL ++ c)))).drop openTagL.length)
        = some (b, c) := by
      have hdrop : ('<' :: ("memex:skip>".data ++ (b ++ (closeTagL ++ c)))).drop
          openTagL.length = b ++ (closeTagL ++ c) := rfl
      rw [hdrop]
      exact findClose_skip b c hb
    rw [hcons, skipAux_cons_open _ _ _ _ ho hfc]
  · intro js git existing transcript projectPath logFile now response snap
    cases hp : js.parseMem (cleanResponse response) <;>
      simp [compressSession, hp]

theorem claim_C1_witness :
    skipAux ("A ".data ++ (openTagL ++ ("B".data ++ (closeTagL ++ " C".data))))
      = "A ".data ++ (placeholderL ++ skipAux " C".data) :=
  claim_C1.1 "A ".data "B".data " C".data (by decide) (by decide)

end Memex
